import Mathlib

/-!
Verification of the keyword-to-character-class transformer (`src/kw.py`).

The program reads `sys.argv[1]` and, for each character `ch` of that string in
order, appends the four pieces `'['`, `ch.lower()`, `ch.upper()`, `']'` to a
list `ret`, and finally prints the concatenation of `ret` (which appends a newline).

Python's `str.lower` / `str.upper` are full Unicode case mappings, and on a
one-character string the result may have more than one character (for example
`'ß'.upper() == 'SS'`, and `'İ'.lower()` is `'i'` followed by the combining
dot above U+0307).  We therefore model them as functions `Char → List Char`.
The model is exact on the ASCII range (where both mappings agree with the
simple A–Z / a–z conversion) and includes the two expansion special cases
above; all other characters are mapped to themselves.
-/

namespace Kw

/-- Python `ch.lower()` for a one-character string holding `c`: the full
lowercase mapping, possibly several characters long.  Modelled exactly on
ASCII together with the expansion case `'İ'` (U+0130), which lowercases to
`'i'` followed by the combining dot above (U+0307); other characters map to
themselves. -/
def pyLower (c : Char) : List Char :=
  if c = 'İ' then ['i', Char.ofNat 0x307] else [c.toLower]

/-- Python `ch.upper()` for a one-character string holding `c`: the full
uppercase mapping, possibly several characters long.  Modelled exactly on
ASCII together with the expansion case `'ß'` (U+00DF), which uppercases to
`"SS"`; other characters map to themselves. -/
def pyUpper (c : Char) : List Char :=
  if c = 'ß' then ['S', 'S'] else [c.toUpper]

/-- The four strings appended to `ret` by one iteration of the loop in
`main`: `'['`, `ch.lower()`, `ch.upper()`, `']'`. -/
def groupPieces (ch : Char) : List (List Char) :=
  [['['], pyLower ch, pyUpper ch, [']']]

/-- One iteration of the loop body of `main`: the four `ret.append(...)`
calls. -/
def loopBody (ret : List (List Char)) (ch : Char) : List (List Char) :=
  ret ++ groupPieces ch

/-- The list `ret` built by `main`'s loop over the keyword, starting from
`ret = []`. -/
def mainRet (kw : List Char) : List (List Char) :=
  kw.foldl loopBody []

/-- The transformed string computed by `main`: the concatenation of all the
pieces in `ret`. -/
def transform (kw : List Char) : List Char :=
  (mainRet kw).flatten

/-- The bracket group contributed by a single input character: `'['`, then
its lowercase mapping, then its uppercase mapping, then `']'`. -/
def bracketGroup (ch : Char) : List Char :=
  '[' :: (pyLower ch ++ pyUpper ch ++ [']'])

/-- Concatenation of the per-character bracket groups, in input order. -/
def concatGroups (kw : List Char) : List Char :=
  (kw.map bracketGroup).flatten

/-- Python `s.lower()` on a whole string: each character is replaced by its
(possibly multi-character) lowercase mapping. -/
def lowerStr (s : List Char) : List Char :=
  (s.map pyLower).flatten

/-- Python `s.upper()` on a whole string: each character is replaced by its
(possibly multi-character) uppercase mapping. -/
def upperStr (s : List Char) : List Char :=
  (s.map pyUpper).flatten

/-- Observable outcome of one run of the program: what was written to
standard output, and the process exit status. -/
structure RunResult where
  out : List Char
  exitCode : Nat
  deriving DecidableEq

/-- Model of running the program with argument vector `argv` (index 0 is the
program name).  `sys.argv[1]` raises `IndexError` when no argument was
supplied, which terminates the process with a nonzero status before any
output is produced; otherwise `main` prints the transformed keyword followed
by a newline and the process exits with status 0. -/
def runMain (argv : List String) : RunResult :=
  match argv.get? 1 with
  | none => ⟨[], 1⟩
  | some kw => ⟨transform kw.data ++ ['\n'], 0⟩

/-! ### Structural lemmas -/

theorem foldl_loopBody (kw : List Char) (acc : List (List Char)) :
    kw.foldl loopBody acc = acc ++ (kw.map groupPieces).flatten := by
  induction kw generalizing acc with
  | nil => simp
  | cons c t ih =>
    simp only [List.foldl_cons, ih, loopBody, List.map_cons, List.flatten_cons,
      List.append_assoc]

theorem flatten_groupPieces (ch : Char) : (groupPieces ch).flatten = bracketGroup ch := by
  simp [groupPieces, bracketGroup]

theorem transform_eq_concatGroups (kw : List Char) :
    transform kw = concatGroups kw := by
  unfold transform mainRet concatGroups
  rw [foldl_loopBody, List.nil_append]
  induction kw with
  | nil => rfl
  | cons c t ih =>
    simp only [List.map_cons, List.flatten_cons, List.flatten_append, ih,
      flatten_groupPieces]

theorem concatGroups_cons (c : Char) (t : List Char) :
    concatGroups (c :: t) = bracketGroup c ++ concatGroups t := by
  simp [concatGroups]

/-! ### Character-level lemmas -/

theorem toNat_ofNat_of_lt {n : Nat} (h : n < 55296) : (Char.ofNat n).toNat = n := by
  have hv : n.isValidChar := Or.inl h
  rw [Char.ofNat, dif_pos hv]
  rfl

theorem toNat_toLower (c : Char) :
    c.toLower.toNat = if 65 ≤ c.toNat ∧ c.toNat ≤ 90 then c.toNat + 32 else c.toNat := by
  by_cases h : 65 ≤ c.toNat ∧ c.toNat ≤ 90
  · rw [if_pos h]
    simp only [Char.toLower, ge_iff_le, if_pos h]
    exact toNat_ofNat_of_lt (by omega)
  · rw [if_neg h]
    simp only [Char.toLower, ge_iff_le, if_neg h]

theorem toNat_toUpper (c : Char) :
    c.toUpper.toNat = if 97 ≤ c.toNat ∧ c.toNat ≤ 122 then c.toNat - 32 else c.toNat := by
  by_cases h : 97 ≤ c.toNat ∧ c.toNat ≤ 122
  · rw [if_pos h]
    simp only [Char.toUpper, ge_iff_le, if_pos h]
    exact toNat_ofNat_of_lt (by omega)
  · rw [if_neg h]
    simp only [Char.toUpper, ge_iff_le, if_neg h]

theorem char_eq_of_toNat_eq {c d : Char} (h : c.toNat = d.toNat) : c = d := by
  have := congrArg Char.ofNat h
  rwa [Char.ofNat_toNat, Char.ofNat_toNat] at this

theorem toLower_eq_self_of_not_upper {c : Char}
    (h : ¬(65 ≤ c.toNat ∧ c.toNat ≤ 90)) : c.toLower = c := by
  apply char_eq_of_toNat_eq
  rw [toNat_toLower, if_neg h]

theorem toUpper_eq_self_of_not_lower {c : Char}
    (h : ¬(97 ≤ c.toNat ∧ c.toNat ≤ 122)) : c.toUpper = c := by
  apply char_eq_of_toNat_eq
  rw [toNat_toUpper, if_neg h]

theorem ne_of_toNat_ne {c d : Char} (h : c.toNat ≠ d.toNat) : c ≠ d :=
  fun he => h (congrArg Char.toNat he)

theorem toNat_ne_of_ne {c d : Char} (h : c ≠ d) : c.toNat ≠ d.toNat :=
  fun hn => h (char_eq_of_toNat_eq hn)

theorem toLower_toLower (c : Char) : c.toLower.toLower = c.toLower := by
  apply toLower_eq_self_of_not_upper
  rw [toNat_toLower]
  split <;> omega

theorem toUpper_toUpper (c : Char) : c.toUpper.toUpper = c.toUpper := by
  apply toUpper_eq_self_of_not_lower
  rw [toNat_toUpper]
  split <;> omega

theorem isAlpha_iff (c : Char) :
    c.isAlpha = true ↔ (65 ≤ c.toNat ∧ c.toNat ≤ 90) ∨ (97 ≤ c.toNat ∧ c.toNat ≤ 122) := by
  simp only [Char.isAlpha, Char.isUpper, Char.isLower, Bool.or_eq_true, Bool.and_eq_true,
    decide_eq_true_eq]
  exact Iff.rfl

theorem pyLower_length_pos (c : Char) : 1 ≤ (pyLower c).length := by
  unfold pyLower
  split <;> simp

theorem pyUpper_length_pos (c : Char) : 1 ≤ (pyUpper c).length := by
  unfold pyUpper
  split <;> simp

theorem pyLower_of_ascii {c : Char} (h : c.toNat < 128) : pyLower c = [c.toLower] := by
  unfold pyLower
  rw [if_neg]
  intro he
  rw [he] at h
  exact absurd h (by decide)

theorem pyUpper_of_ascii {c : Char} (h : c.toNat < 128) : pyUpper c = [c.toUpper] := by
  unfold pyUpper
  rw [if_neg]
  intro he
  rw [he] at h
  exact absurd h (by decide)

theorem toLower_ne_bracket {c : Char} (h1 : c ≠ '[') (h2 : c ≠ ']') :
    c.toLower ≠ '[' ∧ c.toLower ≠ ']' := by
  have h91 : c.toNat ≠ 91 := fun hn => h1 (char_eq_of_toNat_eq (hn.trans (by decide)))
  have h93 : c.toNat ≠ 93 := fun hn => h2 (char_eq_of_toNat_eq (hn.trans (by decide)))
  constructor <;>
    · apply ne_of_toNat_ne
      simp only [toNat_toLower, show Char.toNat '[' = 91 from by decide,
        show Char.toNat ']' = 93 from by decide]
      split <;> omega

theorem toUpper_ne_bracket {c : Char} (h1 : c ≠ '[') (h2 : c ≠ ']') :
    c.toUpper ≠ '[' ∧ c.toUpper ≠ ']' := by
  have h91 : c.toNat ≠ 91 := fun hn => h1 (char_eq_of_toNat_eq (hn.trans (by decide)))
  have h93 : c.toNat ≠ 93 := fun hn => h2 (char_eq_of_toNat_eq (hn.trans (by decide)))
  constructor <;>
    · apply ne_of_toNat_ne
      simp only [toNat_toUpper, show Char.toNat '[' = 91 from by decide,
        show Char.toNat ']' = 93 from by decide]
      split <;> omega

theorem pyLower_no_bracket {c : Char} (h1 : c ≠ '[') (h2 : c ≠ ']') :
    ∀ x ∈ pyLower c, x ≠ '[' ∧ x ≠ ']' := by
  intro x hx
  unfold pyLower at hx
  split at hx
  · simp only [List.mem_cons, List.not_mem_nil, or_false] at hx
    rcases hx with rfl | rfl
    · exact ⟨by decide, by decide⟩
    · exact ⟨by decide, by decide⟩
  · simp only [List.mem_singleton] at hx
    subst hx
    exact toLower_ne_bracket h1 h2

theorem pyUpper_no_bracket {c : Char} (h1 : c ≠ '[') (h2 : c ≠ ']') :
    ∀ x ∈ pyUpper c, x ≠ '[' ∧ x ≠ ']' := by
  intro x hx
  unfold pyUpper at hx
  split at hx
  · simp only [List.mem_cons, List.not_mem_nil, or_false] at hx
    rcases hx with rfl | rfl
    · exact ⟨by decide, by decide⟩
    · exact ⟨by decide, by decide⟩
  · simp only [List.mem_singleton] at hx
    subst hx
    exact toUpper_ne_bracket h1 h2

theorem length_bracketGroup (c : Char) :
    (bracketGroup c).length = 2 + (pyLower c).length + (pyUpper c).length := by
  simp [bracketGroup]
  omega

theorem mem_pyLower_ne_open {c : Char} (h1 : c ≠ '[') (h2 : c ≠ ']') :
    '[' ∉ pyLower c :=
  fun hm => (pyLower_no_bracket h1 h2 '[' hm).1 rfl

theorem mem_pyLower_ne_close {c : Char} (h1 : c ≠ '[') (h2 : c ≠ ']') :
    ']' ∉ pyLower c :=
  fun hm => (pyLower_no_bracket h1 h2 ']' hm).2 rfl

theorem mem_pyUpper_ne_open {c : Char} (h1 : c ≠ '[') (h2 : c ≠ ']') :
    '[' ∉ pyUpper c :=
  fun hm => (pyUpper_no_bracket h1 h2 '[' hm).1 rfl

theorem mem_pyUpper_ne_close {c : Char} (h1 : c ≠ '[') (h2 : c ≠ ']') :
    ']' ∉ pyUpper c :=
  fun hm => (pyUpper_no_bracket h1 h2 ']' hm).2 rfl

theorem filter_bracket_pyLower {c : Char} (h1 : c ≠ '[') (h2 : c ≠ ']') :
    (pyLower c).filter (fun x => x == '[' || x == ']') = [] := by
  rw [List.filter_eq_nil_iff]
  intro a ha
  have h := pyLower_no_bracket h1 h2 a ha
  simp [h.1, h.2]

theorem filter_bracket_pyUpper {c : Char} (h1 : c ≠ '[') (h2 : c ≠ ']') :
    (pyUpper c).filter (fun x => x == '[' || x == ']') = [] := by
  rw [List.filter_eq_nil_iff]
  intro a ha
  have h := pyUpper_no_bracket h1 h2 a ha
  simp [h.1, h.2]

theorem bracketGroup_count_open {c : Char} (h1 : c ≠ '[') (h2 : c ≠ ']') :
    (bracketGroup c).count '[' = 1 := by
  simp [bracketGroup, List.count_cons, List.count_append,
    List.count_eq_zero.mpr (mem_pyLower_ne_open h1 h2),
    List.count_eq_zero.mpr (mem_pyUpper_ne_open h1 h2)]

theorem bracketGroup_count_close {c : Char} (h1 : c ≠ '[') (h2 : c ≠ ']') :
    (bracketGroup c).count ']' = 1 := by
  simp [bracketGroup, List.count_cons, List.count_append,
    List.count_eq_zero.mpr (mem_pyLower_ne_close h1 h2),
    List.count_eq_zero.mpr (mem_pyUpper_ne_close h1 h2)]

theorem bracketGroup_filter {c : Char} (h1 : c ≠ '[') (h2 : c ≠ ']') :
    (bracketGroup c).filter (fun x => x == '[' || x == ']') = ['[', ']'] := by
  simp [bracketGroup, List.filter_cons, List.filter_append,
    filter_bracket_pyLower h1 h2, filter_bracket_pyUpper h1 h2]

theorem concatGroups_bracket_structure :
    ∀ s : List Char, (∀ c ∈ s, c ≠ '[' ∧ c ≠ ']') →
      (concatGroups s).count '[' = s.length ∧
      (concatGroups s).count ']' = s.length ∧
      (concatGroups s).filter (fun x => x == '[' || x == ']') =
        (List.replicate s.length ['[', ']']).flatten := by
  intro s
  induction s with
  | nil => intro _; simp [concatGroups]
  | cons c t ih =>
    intro h
    have hc := h c (List.mem_cons_self c t)
    have ht := ih fun x hx => h x (List.mem_cons_of_mem c hx)
    rw [concatGroups_cons, List.count_append, List.count_append, List.filter_append,
      bracketGroup_count_open hc.1 hc.2, bracketGroup_count_close hc.1 hc.2,
      bracketGroup_filter hc.1 hc.2, ht.1, ht.2.1, ht.2.2]
    refine ⟨by simp; omega, by simp; omega, ?_⟩
    simp [List.replicate_succ]

/-! ### The claims -/

/-- C1 (corrected).  For every input string the output length is at least
`4 n`, and it is exactly `4 n` whenever every character's lowercase and
uppercase mappings are single characters (in particular for every ASCII
input).  The original claim — length exactly `4 n` for *every* input — fails
because the full case mapping can expand a character (see
`output_length_not_four_n_at_eszett`). -/
theorem output_length_four_n (s : List Char) :
    4 * s.length ≤ (transform s).length ∧
    ((∀ c ∈ s, (pyLower c).length = 1 ∧ (pyUpper c).length = 1) →
      (transform s).length = 4 * s.length) := by
  rw [transform_eq_concatGroups]
  induction s with
  | nil => simp [concatGroups]
  | cons c t ih =>
    rw [concatGroups_cons, List.length_append, length_bracketGroup]
    have hl := pyLower_length_pos c
    have hu := pyUpper_length_pos c
    constructor
    · have := ih.1
      simp only [List.length_cons]
      omega
    · intro hall
      have hc := hall c (List.mem_cons_self c t)
      have ht := ih.2 fun x hx => hall x (List.mem_cons_of_mem c hx)
      simp only [List.length_cons]
      omega

/-- Witness for `output_length_four_n`: on the ASCII input `"ab"` the length
is exactly `4 · 2 = 8`. -/
theorem output_length_four_n_witness :
    (transform "ab".data).length = 4 * ("ab".data).length :=
  (output_length_four_n "ab".data).2 (by decide)

/-- Counterexample to C1 as stated: on the input `"ß"` (length 1) the output
is `"[ßSS]"`, of length 5, not `4 · 1 = 4`, because `'ß'.upper()` is the
two-character string `"SS"`. -/
theorem output_length_not_four_n_at_eszett :
    (transform ['ß']).length ≠ 4 * ([('ß' : Char)]).length := by decide

/-- C2 (corrected).  The output is the concatenation, in input order, of one
bracket group per input character, each group being `'['`, then the
character's lowercase mapping, then its uppercase mapping, then `']'`; a
group consists of exactly four characters whenever both mappings are single
characters.  The original claim — every group is four characters — fails for
`'ß'` (see `output_group_at_eszett_not_four_chars`). -/
theorem output_is_concat_of_groups (kw : List Char) :
    transform kw = concatGroups kw ∧
    (∀ c ∈ kw, (pyLower c).length = 1 → (pyUpper c).length = 1 →
      (bracketGroup c).length = 4) := by
  refine ⟨transform_eq_concatGroups kw, ?_⟩
  intro c _ hl hu
  rw [length_bracketGroup, hl, hu]

/-- Witness for `output_is_concat_of_groups` at the input `"ab"`. -/
theorem output_is_concat_of_groups_witness :
    transform "ab".data = concatGroups "ab".data ∧
    (bracketGroup 'a').length = 4 :=
  ⟨(output_is_concat_of_groups "ab".data).1,
    (output_is_concat_of_groups "ab".data).2 'a' (by decide) (by decide) (by decide)⟩

/-- Counterexample to C2 as stated: the output for `"ß"` is not of the form
`['[', a, b, ']']` for any two characters `a`, `b` — the single bracket group
has five characters, since `'ß'.upper()` is `"SS"`. -/
theorem output_group_at_eszett_not_four_chars :
    ¬∃ a b : Char, transform ['ß'] = ['[', a, b, ']'] := by
  rintro ⟨a, b, h⟩
  have h5 : (transform ['ß']).length = 5 := by decide
  rw [h] at h5
  simp at h5

/-- C3 (confirmed).  Whenever an argument is supplied (`argv` has at least
two entries, the program name and the keyword), the run succeeds: exit status
`0`, and the output is the total transformation of the keyword followed by a
newline — no error path is reachable for any keyword value. -/
theorem transform_total_exit_zero (argv : List String) (h : 2 ≤ argv.length) :
    (runMain argv).exitCode = 0 ∧
    ∃ kw : String, argv.get? 1 = some kw ∧
      (runMain argv).out = transform kw.data ++ ['\n'] := by
  match argv with
  | [] => simp at h
  | [a] => simp at h
  | a :: b :: t => exact ⟨rfl, b, rfl, rfl⟩

/-- Witness for `transform_total_exit_zero` at `argv = ["kw.py", "Zz!"]`. -/
theorem transform_total_exit_zero_witness :
    (runMain ["kw.py", "Zz!"]).exitCode = 0 ∧
    ∃ kw : String, (["kw.py", "Zz!"] : List String).get? 1 = some kw ∧
      (runMain ["kw.py", "Zz!"]).out = transform kw.data ++ ['\n'] :=
  transform_total_exit_zero ["kw.py", "Zz!"] (by decide)

/-- C4 (confirmed).  With no keyword argument (`argv` holds at most the
program name), the access `sys.argv[1]` fails, the process exits with a
nonzero status, and no transformed output is produced. -/
theorem missing_arg_fails (argv : List String) (h : argv.length ≤ 1) :
    (runMain argv).exitCode ≠ 0 ∧ (runMain argv).out = [] := by
  have hn : argv.get? 1 = none := List.get?_eq_none.mpr h
  unfold runMain
  rw [hn]
  exact ⟨Nat.one_ne_zero, rfl⟩

/-- Witness for `missing_arg_fails` at `argv = ["kw.py"]`. -/
theorem missing_arg_fails_witness :
    (runMain ["kw.py"]).exitCode ≠ 0 ∧ (runMain ["kw.py"]).out = [] :=
  missing_arg_fails ["kw.py"] (by decide)

/-- C5 (confirmed).  On the empty keyword the transformation yields the empty
string, the process exits with status `0`, and what is written to standard
output is exactly the empty result followed by a newline — for any program
name. -/
theorem empty_keyword_empty_output (prog : String) :
    runMain [prog, ""] = ⟨['\n'], 0⟩ ∧ transform "".data = [] :=
  ⟨rfl, rfl⟩

/-- Witness for `empty_keyword_empty_output` at the program name `"kw.py"`. -/
theorem empty_keyword_empty_output_witness :
    runMain ["kw.py", ""] = ⟨['\n'], 0⟩ ∧ transform "".data = [] :=
  empty_keyword_empty_output "kw.py"

/-- C6 (confirmed).  Every ASCII character that is not a letter — digits,
punctuation, symbols, whitespace — is mapped to itself by both case
mappings, so its bracket group degenerates to `'[' c c ']'`. -/
theorem caseless_group_degenerate (c : Char) (hascii : c.toNat < 128)
    (halpha : c.isAlpha = false) :
    pyLower c = [c] ∧ pyUpper c = [c] ∧ bracketGroup c = ['[', c, c, ']'] := by
  have hn : ¬((65 ≤ c.toNat ∧ c.toNat ≤ 90) ∨ (97 ≤ c.toNat ∧ c.toNat ≤ 122)) := by
    intro hcon
    have h2 := (isAlpha_iff c).mpr hcon
    rw [halpha] at h2
    exact Bool.false_ne_true h2
  rw [not_or] at hn
  have hl2 : c.toLower = c := toLower_eq_self_of_not_upper hn.1
  have hu2 : c.toUpper = c := toUpper_eq_self_of_not_lower hn.2
  simp [bracketGroup, pyLower_of_ascii hascii, pyUpper_of_ascii hascii, hl2, hu2]

/-- Witness for `caseless_group_degenerate` at the digit `'1'`. -/
theorem caseless_group_degenerate_witness :
    pyLower '1' = ['1'] ∧ pyUpper '1' = ['1'] ∧
    bracketGroup '1' = ['[', '1', '1', ']'] :=
  caseless_group_degenerate '1' (by decide) (by decide)

/-- C7 (confirmed).  The case mappings used by the transformer are
idempotent: lowering an already-lowered character string changes nothing, and
likewise for uppering an already-uppered one. -/
theorem case_mappings_idempotent (c : Char) :
    lowerStr (pyLower c) = pyLower c ∧ upperStr (pyUpper c) = pyUpper c := by
  constructor
  · by_cases hc : c = 'İ'
    · subst hc; decide
    · have h304 : c.toNat ≠ 304 :=
        fun hn => hc (char_eq_of_toNat_eq (hn.trans (by decide)))
      have hne : c.toLower ≠ 'İ' := by
        apply ne_of_toNat_ne
        simp only [toNat_toLower, show Char.toNat 'İ' = 304 from by decide]
        split <;> omega
      simp only [pyLower, if_neg hc, lowerStr, List.map_cons, List.map_nil,
        List.flatten_cons, List.flatten_nil, List.append_nil, if_neg hne,
        toLower_toLower]
  · by_cases hc : c = 'ß'
    · subst hc; decide
    · have h223 : c.toNat ≠ 223 :=
        fun hn => hc (char_eq_of_toNat_eq (hn.trans (by decide)))
      have hne : c.toUpper ≠ 'ß' := by
        apply ne_of_toNat_ne
        simp only [toNat_toUpper, show Char.toNat 'ß' = 223 from by decide]
        split <;> omega
      simp only [pyUpper, if_neg hc, upperStr, List.map_cons, List.map_nil,
        List.flatten_cons, List.flatten_nil, List.append_nil, if_neg hne,
        toUpper_toUpper]

/-- C8 (confirmed).  The four concrete scenarios of the specification:
`"ab" ↦ "[aA][bB]"`, `"A" ↦ "[aA]"`, `"1" ↦ "[11]"`, `"Zz!" ↦ "[zZ][zZ][!!]"`. -/
theorem concrete_scenarios :
    transform "ab".data = "[aA][bB]".data ∧
    transform "A".data = "[aA]".data ∧
    transform "1".data = "[11]".data ∧
    transform "Zz!".data = "[zZ][zZ][!!]".data :=
  ⟨by decide, by decide, by decide, by decide⟩

/-- C9 (confirmed).  The run outcome — output and exit status — depends only
on `argv[1]`: two argument vectors that agree at index 1 produce identical
results, whatever extra arguments either carries. -/
theorem depends_only_on_first_arg (a b : List String)
    (h : a.get? 1 = b.get? 1) : runMain a = runMain b := by
  unfold runMain
  rw [h]

/-- Witness for `depends_only_on_first_arg`: extra trailing arguments are
ignored. -/
theorem depends_only_on_first_arg_witness :
    runMain ["kw.py", "ab", "extra", "args"] = runMain ["other", "ab"] :=
  depends_only_on_first_arg ["kw.py", "ab", "extra", "args"] ["other", "ab"] (by decide)

/-- C10 (corrected).  For every input string none of whose characters is
`'['` or `']'`, the output contains exactly `n` occurrences of `'['` and `n`
of `']'`, and they alternate — the subsequence of bracket characters is `n`
copies of `"[]"`, so every group is closed before the next opens, even when a
case mapping expands to several characters.  The original unrestricted claim
fails when the input itself contains a bracket (see
`bracket_count_wrong_at_bracket_input`): a bracket input character is copied
into the middle of its own group by both case mappings. -/
theorem bracket_counts_and_nesting (s : List Char)
    (h : ∀ c ∈ s, c ≠ '[' ∧ c ≠ ']') :
    (transform s).count '[' = s.length ∧
    (transform s).count ']' = s.length ∧
    (transform s).filter (fun x => x == '[' || x == ']') =
      (List.replicate s.length ['[', ']']).flatten := by
  rw [transform_eq_concatGroups]
  exact concatGroups_bracket_structure s h

/-- Witness for `bracket_counts_and_nesting` at the input `"ab"`. -/
theorem bracket_counts_and_nesting_witness :
    (transform "ab".data).count '[' = ("ab".data).length ∧
    (transform "ab".data).count ']' = ("ab".data).length ∧
    (transform "ab".data).filter (fun x => x == '[' || x == ']') =
      (List.replicate ("ab".data).length ['[', ']']).flatten :=
  bracket_counts_and_nesting "ab".data (by decide)

/-- Counterexample to C10 as stated: for the one-character input `"["` the
output is `"[[[]"`, which contains three `'['`, not one. -/
theorem bracket_count_wrong_at_bracket_input :
    (transform ['[']).count '[' ≠ ([('[' : Char)]).length := by decide

end Kw
